import Mathlib

/-!
Verification of the CV-preprocessing-scripts repository.

Shallow embedding of the four annotation engines:
* `label_reduction.py`  — class remapper (`process_label_file`)
* `modify_labels.py`    — conflict resolver / fixer (`LabelFixer.process_label_pair`,
                          `LabelFixer.is_valid_yolo_format`)
* `check_labels.py`     — validation reporter (`DatasetValidator.validate_split`)
* `img_rename.py`       — sequential renamer (`rename_image_label_pairs`)

File contents are modelled as `String`s, directories as lists of file names
(or name-content pairs).  Python `float` values are modelled as exact decimal
rationals (`PyDec`), which agrees with `float()` on ordinary decimal literals
as used in YOLO label files; scientific notation, `inf`/`nan` and
double-rounding at the 17th digit are outside the model.
-/

/-! ## String utilities (models of the Python string operations used) -/

/-- Model of Python `str.strip()` on the character list. -/
def trimChars (l : List Char) : List Char :=
  ((l.dropWhile Char.isWhitespace).reverse.dropWhile Char.isWhitespace).reverse

/-- Model of Python `str.strip()`. -/
def pyStrip (s : String) : String := ⟨trimChars s.data⟩

/-- Split a character list at every occurrence of `sep`
(model of Python `str.split(sep)` for a single-character separator). -/
def splitCharsOn (sep : Char) : List Char → List (List Char)
  | [] => [[]]
  | c :: r =>
    match splitCharsOn sep r with
    | [] => [[]]
    | t :: ts => if c = sep then [] :: t :: ts else (c :: t) :: ts

/-- Split a string into lines (model of iterating a file's lines /
`content.split('\n')`; a trailing newline yields a final empty piece, which
every consumer treats like Python treats the absent extra line). -/
def splitLines (s : String) : List String :=
  (splitCharsOn '\n' s.data).map (fun l => (⟨l⟩ : String))

/-- Helper for `pySplitWS`: accumulate the current token (reversed). -/
def splitWsAux (acc : List Char) : List Char → List (List Char)
  | [] => if acc.isEmpty then [] else [acc.reverse]
  | c :: r =>
    if c.isWhitespace then
      if acc.isEmpty then splitWsAux [] r else acc.reverse :: splitWsAux [] r
    else splitWsAux (c :: acc) r

/-- Model of Python `str.split()` with no arguments: split on runs of
whitespace, discarding empty tokens. -/
def pySplitWS (s : String) : List String :=
  (splitWsAux [] s.data).map (fun l => (⟨l⟩ : String))

/-- Numeric value of a list of decimal digit characters. -/
def digitsVal (l : List Char) : Nat :=
  l.foldl (fun a c => a * 10 + (c.toNat - 48)) 0

/-- Model of Python `int(s)`: optional surrounding whitespace, optional sign,
then decimal digits.  (Underscore separators and non-decimal bases are outside
the model.) -/
def pyInt? (s : String) : Option Int :=
  match trimChars s.data with
  | '+' :: ds => if !ds.isEmpty && ds.all Char.isDigit then some (digitsVal ds) else none
  | '-' :: ds => if !ds.isEmpty && ds.all Char.isDigit then some (-(digitsVal ds : Int)) else none
  | ds => if !ds.isEmpty && ds.all Char.isDigit then some (digitsVal ds) else none

/-- An exact decimal value `num / den` (with `den` a power of ten), the model
of a parsed Python `float`. -/
structure PyDec where
  num : Int
  den : Nat
deriving DecidableEq

/-- Parse an unsigned decimal literal. -/
def pyDecCore (ds : List Char) : Option PyDec :=
  match splitCharsOn '.' ds with
  | [i] => if !i.isEmpty && i.all Char.isDigit then some ⟨digitsVal i, 1⟩ else none
  | [i, f] =>
    if (!i.isEmpty || !f.isEmpty) && i.all Char.isDigit && f.all Char.isDigit then
      some ⟨digitsVal (i ++ f), 10 ^ f.length⟩
    else none
  | _ => none

/-- Model of Python `float(s)` restricted to plain decimal literals. -/
def pyFloat? (s : String) : Option PyDec :=
  match trimChars s.data with
  | '+' :: ds => pyDecCore ds
  | '-' :: ds => (pyDecCore ds).map (fun d => ⟨-d.num, d.den⟩)
  | ds => pyDecCore ds

/-- `0 <= v <= 1` for a decimal value (the normalized-coordinate check). -/
def decIn01 (d : PyDec) : Bool := (0 ≤ d.num) && (d.num ≤ (d.den : Int))

/-! ## `label_reduction.py` — the class remapper -/

/-- `DELETE_CLASSES = {0, 1, 4}` (car, explosion, person). -/
def DELETE_CLASSES : List Int := [0, 1, 4]

/-- `MERGE_TO_MILITARY = {2, 3, 5}` (military_truck, military_vehicle, truck). -/
def MERGE_TO_MILITARY : List Int := [2, 3, 5]

/-- `NEW_CLASS_ID = 0`. -/
def NEW_CLASS_ID : Int := 0

/-- Decimal rendering of an integer (model of Python `str(i)`). -/
def intStr (i : Int) : String :=
  if i < 0 then "-" ++ ⟨Nat.toDigits 10 i.natAbs⟩ else ⟨Nat.toDigits 10 i.toNat⟩

/-- Model of `" ".join(parts)`. -/
def joinSp : List String → String
  | [] => ""
  | [x] => x
  | x :: r => x ++ " " ++ joinSp r

/-- The rewritten output line for a merged record:
`parts[0] = str(NEW_CLASS_ID); " ".join(parts) + "\n"`. -/
def rewriteLine (parts : List String) : String :=
  joinSp (intStr NEW_CLASS_ID :: parts.tail) ++ "\n"

/-- One loop iteration of `process_label_file` on a single raw line.
`.error` models the uncaught `ValueError` from `int(parts[0])`;
`.ok none` means the line contributes nothing; `.ok (some s)` appends `s`. -/
def reduceLine (line : String) : Except Unit (Option String) :=
  let parts := pySplitWS (pyStrip line)
  if parts.length < 5 then .ok none
  else
    match pyInt? (parts.headD "") with
    | none => .error ()
    | some oldClass =>
      if oldClass ∈ DELETE_CLASSES then .ok none
      else if oldClass ∈ MERGE_TO_MILITARY then .ok (some (rewriteLine parts))
      else .ok none

/-- The full line loop of `process_label_file`; an uncaught `ValueError`
aborts the whole rewrite (the file is then never written). -/
def reduceLines : List String → Except Unit (List String)
  | [] => .ok []
  | l :: ls =>
    match reduceLine l with
    | .error e => .error e
    | .ok none => reduceLines ls
    | .ok (some s) =>
      match reduceLines ls with
      | .error e => .error e
      | .ok rest => .ok (s :: rest)

/-- `process_label_file`: read the file's lines and produce the `new_lines`
that replace its content (or raise). -/
def process_label_file (content : String) : Except Unit (List String) :=
  reduceLines (splitLines content)

/-- The class id the remapper reads from a line (none if the line is skipped
as short or its first field does not parse). -/
def classOfLine (line : String) : Option Int :=
  let parts := pySplitWS (pyStrip line)
  if parts.length < 5 then none else pyInt? (parts.headD "")

/-- A line that survives remapping: at least 5 fields and a class id in the
merge domain. -/
def mergeLineB (line : String) : Bool :=
  match classOfLine line with
  | some c => decide (c ∈ MERGE_TO_MILITARY)
  | none => false

/-- A line on which the remap loop does not raise: short, or its first field
parses as an integer. -/
def lineParsesB (line : String) : Bool :=
  let parts := pySplitWS (pyStrip line)
  decide (parts.length < 5) || (pyInt? (parts.headD "")).isSome


/-! ## `modify_labels.py` — the conflict resolver (fixer) -/

/-- `LabelFixer.is_valid_yolo_format`: content is valid YOLO format iff it is
non-blank and every non-blank line has exactly 5 whitespace-separated fields,
an integer class id in `[0, num_classes)`, and four floats in `[0, 1]`. -/
def is_valid_yolo_format (numClasses : Nat) (content : String) : Bool :=
  if (pyStrip content).data.isEmpty then false
  else
    (splitLines (pyStrip content)).all fun rawLine =>
      let line := pyStrip rawLine
      if line.data.isEmpty then true
      else
        match pySplitWS line with
        | [p0, p1, p2, p3, p4] =>
          match pyInt? p0, pyFloat? p1, pyFloat? p2, pyFloat? p3, pyFloat? p4 with
          | some cid, some x, some y, some w, some h =>
            if cid < 0 ∨ (numClasses : Int) ≤ cid then false
            else if !(decIn01 x && decIn01 y && decIn01 w && decIn01 h) then false
            else true
          | _, _, _, _, _ => false
        | _ => false

/-- The slice of the filesystem the fixer touches: the labels directory as an
association list name ↦ content, and the images directory as a name list. -/
structure FixerFS where
  labels : List (String × String)
  images : List String
deriving DecidableEq

/-- Write file `k` with content `v` (create or overwrite). -/
def fsWrite (l : List (String × String)) (k v : String) : List (String × String) :=
  l.filter (fun p => decide (p.1 ≠ k)) ++ [(k, v)]

/-- Delete file `k` (no-op when absent, like the guarded `unlink`). -/
def fsDelete (l : List (String × String)) (k : String) : List (String × String) :=
  l.filter (fun p => decide (p.1 ≠ k))

/-- The image names `process_label_pair` ever considers for a stem. -/
def imgCandidates (stem : String) : List String :=
  [stem ++ ".jpg", stem ++ ".jpeg", stem ++ ".png", stem ++ ".bmp"]

/-- The image path the fixer resolves for a stem: `stem.jpg`, else the first
existing of `.jpeg`/`.png`/`.bmp`, else the (non-existing) `stem.jpg`. -/
def resolveImg (images : List String) (stem : String) : String :=
  if (stem ++ ".jpg") ∈ images then stem ++ ".jpg"
  else if (stem ++ ".jpeg") ∈ images then stem ++ ".jpeg"
  else if (stem ++ ".png") ∈ images then stem ++ ".png"
  else if (stem ++ ".bmp") ∈ images then stem ++ ".bmp"
  else stem ++ ".jpg"

/-- `LabelFixer.process_label_pair` in apply mode (`dry_run=False`): if the
backup content is valid, write it over the primary and delete the backup;
otherwise delete primary, backup and the resolved image. -/
def process_label_pair (numClasses : Nat) (fs : FixerFS) (stem : String) : FixerFS :=
  let txtName := stem ++ ".txt"
  let bakName := stem ++ ".bak"
  let imgName := resolveImg fs.images stem
  let bakContent := (fs.labels.lookup bakName).getD ""
  if is_valid_yolo_format numClasses bakContent then
    { fs with labels := fsDelete (fsWrite fs.labels txtName bakContent) bakName }
  else
    { labels := fsDelete (fsDelete fs.labels txtName) bakName,
      images := fs.images.filter (fun f => decide (f ≠ imgName)) }


/-! ## `check_labels.py` — the validation reporter -/

/-- Model of Python `str.lower()` for ASCII letters. -/
def lowChar (c : Char) : Char :=
  if c = 'A' then 'a' else
  if c = 'B' then 'b' else
  if c = 'C' then 'c' else
  if c = 'D' then 'd' else
  if c = 'E' then 'e' else
  if c = 'F' then 'f' else
  if c = 'G' then 'g' else
  if c = 'H' then 'h' else
  if c = 'I' then 'i' else
  if c = 'J' then 'j' else
  if c = 'K' then 'k' else
  if c = 'L' then 'l' else
  if c = 'M' then 'm' else
  if c = 'N' then 'n' else
  if c = 'O' then 'o' else
  if c = 'P' then 'p' else
  if c = 'Q' then 'q' else
  if c = 'R' then 'r' else
  if c = 'S' then 's' else
  if c = 'T' then 't' else
  if c = 'U' then 'u' else
  if c = 'V' then 'v' else
  if c = 'W' then 'w' else
  if c = 'X' then 'x' else
  if c = 'Y' then 'y' else
  if c = 'Z' then 'z' else
  c

/-- Model of Python `str.lower()`. -/
def lowStr (s : String) : String := ⟨s.data.map lowChar⟩

/-- Model of `pathlib.PurePath.suffix`: the final component after the last
dot, empty when the dot is absent, first, or last. -/
def pathSuffix (f : String) : String :=
  let cs := f.data
  let pre := cs.reverse.takeWhile (fun c => decide (c ≠ '.'))
  if pre.length = cs.length then ""
  else if pre.length = 0 then ""
  else if pre.length + 1 = cs.length then ""
  else ⟨'.' :: pre.reverse⟩

/-- Model of `pathlib.PurePath.stem`. -/
def pathStem (f : String) : String :=
  ⟨f.data.take (f.data.length - (pathSuffix f).data.length)⟩

/-- The validator's image filter: `f.suffix.lower() in image_extensions`. -/
def isImgName (f : String) : Bool :=
  decide (lowStr (pathSuffix f) ∈ [".jpg", ".jpeg", ".png", ".bmp", ".gif"])

/-- How the validator's line loop classifies one raw line. -/
inductive LineVerdict
  | blank
  | malformed
  | valueErr
  | classOOR
  | coordWarn
  | valid
deriving DecidableEq

/-- Classification of one line by `validate_split`'s inner loop: blank lines
are skipped; a field count other than 5 is malformed; a numeric parse failure
is a `ValueError`; then the class range is checked, then the coordinate
ranges. -/
def lineVerdict (numC : Nat) (rawLine : String) : LineVerdict :=
  let line := pyStrip rawLine
  if line.data.isEmpty then .blank
  else
    match pySplitWS line with
    | [p0, p1, p2, p3, p4] =>
      match pyInt? p0, pyFloat? p1, pyFloat? p2, pyFloat? p3, pyFloat? p4 with
      | some cid, some x, some y, some w, some h =>
        if cid < 0 ∨ (numC : Int) ≤ cid then .classOOR
        else if !(decIn01 x && decIn01 y && decIn01 w && decIn01 h) then .coordWarn
        else .valid
      | _, _, _, _, _ => .valueErr
    | _ => .malformed

/-- Console diagnostics the validator emits while scanning one file. -/
inductive VEvent
  | malformed (ln : Nat)
  | valueErr (ln : Nat)
  | classOOR (ln : Nat)
  | coordWarn (ln : Nat)
deriving DecidableEq

/-- Result of scanning one label file: objects counted before any abort, the
increment to `invalid_format` (0 or 1), and the emitted diagnostics. -/
structure FileScan where
  objects : Nat
  invalid : Nat
  events : List VEvent
deriving DecidableEq

/-- The per-file line loop of `validate_split` (lines 111–153): blank lines
are skipped; malformed lines, `ValueError`s and out-of-range class ids
increment `invalid_format` and `break`; out-of-range coordinates only print a
warning, the line still counts as an object and the loop continues. -/
def scanLines (numC : Nat) : List String → Nat → FileScan
  | [], _ => ⟨0, 0, []⟩
  | l :: ls, n =>
    match lineVerdict numC l with
    | .blank => scanLines numC ls (n + 1)
    | .malformed => ⟨0, 1, [.malformed n]⟩
    | .valueErr => ⟨0, 1, [.valueErr n]⟩
    | .classOOR => ⟨0, 1, [.classOOR n]⟩
    | .coordWarn =>
      let r := scanLines numC ls (n + 1)
      ⟨r.objects + 1, r.invalid, .coordWarn n :: r.events⟩
    | .valid =>
      let r := scanLines numC ls (n + 1)
      ⟨r.objects + 1, r.invalid, r.events⟩

/-- The split-level counters threaded through the per-file loop. -/
structure SplitAcc where
  empty_label_files : Nat
  invalid_format : Nat
  valid_images : Nat
  total_objects : Nat
  objects_per_image : List Nat
deriving DecidableEq

/-- One iteration of the per-file loop of `validate_split` on a
(label-file-name, content) pair: empty files only bump the empty counter;
otherwise the file is scanned, `invalid_format` accumulates, and the
valid-image statistics are only updated when the *split-wide*
`invalid_format` counter is still zero (source line 155). -/
def stepFile (numC : Nat) (st : SplitAcc) (p : String × String) : SplitAcc :=
  if p.2 = "" then
    { st with empty_label_files := st.empty_label_files + 1 }
  else
    let sc := scanLines numC (splitLines p.2) 1
    let st1 := { st with invalid_format := st.invalid_format + sc.invalid }
    if st1.invalid_format = 0 then
      { st1 with valid_images := st1.valid_images + 1,
                 total_objects := st1.total_objects + sc.objects,
                 objects_per_image := st1.objects_per_image ++ [sc.objects] }
    else st1

/-- The whole per-file loop. -/
def validateFiles (numC : Nat) (st : SplitAcc) (files : List (String × String)) : SplitAcc :=
  files.foldl (stepFile numC) st

/-- The split of the filesystem the validator reads: image file names and
label files with contents. -/
structure ValFS where
  images : List String
  labels : List (String × String)
deriving DecidableEq

/-- Filesystem operations; the validator may only ever emit the read-shaped
ones (`applyEvent` gives the write-shaped ones their mutating meaning). -/
inductive FsEvent
  | listImages
  | listLabels
  | statFile (name : String)
  | readFile (name : String)
  | writeFile (name : String) (content : String)
  | deleteFile (name : String)
deriving DecidableEq

/-- Read-shaped filesystem events. -/
def isReadEvent : FsEvent → Bool
  | .writeFile _ _ => false
  | .deleteFile _ => false
  | _ => true

/-- Effect of one filesystem event on the state. -/
def applyEvent (fs : ValFS) : FsEvent → ValFS
  | .writeFile n c => { fs with labels := fsWrite fs.labels n c }
  | .deleteFile n =>
    { labels := fsDelete fs.labels n, images := fs.images.filter (fun f => decide (f ≠ n)) }
  | _ => fs

/-- Effect of a sequence of filesystem events. -/
def applyEvents (fs : ValFS) (evs : List FsEvent) : ValFS := evs.foldl applyEvent fs

/-- `{f.stem: f for f in dir}` — a stem-keyed dictionary (later entries
overwrite earlier ones). -/
def buildStemDict (names : List String) : List (String × String) :=
  names.foldl (fun d f => fsWrite d (pathStem f) f) []

/-- The (label-file-name, content) pairs the per-file loop visits: images (by
stem) that have a matching label file. -/
def labeledFiles (fs : ValFS) : List (String × String) :=
  let imageDict := buildStemDict (fs.images.filter isImgName)
  let labelDict := buildStemDict ((fs.labels.map (fun p => p.1)).filter
    (fun f => decide (pathSuffix f = ".txt")))
  imageDict.filterMap fun p =>
    match labelDict.find? (fun q => q.1 == p.1) with
    | some q => some (q.2, (fs.labels.lookup q.2).getD "")
    | none => none

/-- The stat/read event trace of the per-file loop. -/
def readEventsFor : List (String × String) → List FsEvent
  | [] => []
  | q :: qs => FsEvent.statFile q.1 :: FsEvent.readFile q.1 :: readEventsFor qs

/-- The report `validate_split` accumulates for one split. -/
structure SplitReport where
  total_images : Nat
  total_labels : Nat
  images_without_labels : Nat
  acc : SplitAcc
deriving DecidableEq

/-- `DatasetValidator.validate_split`: build the stem dictionaries, count
images without labels, then run the per-file loop; returns the report and the
trace of filesystem operations performed. -/
def validate_split (numC : Nat) (fs : ValFS) : SplitReport × List FsEvent :=
  let imageDict := buildStemDict (fs.images.filter isImgName)
  let labelDict := buildStemDict ((fs.labels.map (fun p => p.1)).filter
    (fun f => decide (pathSuffix f = ".txt")))
  let missing := imageDict.countP (fun p => !(labelDict.any (fun q => q.1 == p.1)))
  let labeled := labeledFiles fs
  let acc := validateFiles numC ⟨0, 0, 0, 0, []⟩ labeled
  (⟨imageDict.length, labelDict.length, missing, acc⟩,
   [FsEvent.listImages, FsEvent.listLabels] ++ readEventsFor labeled)


/-! ## `img_rename.py` — the sequential renamer -/

/-- Model of Python `str.endswith(t)`. -/
def strEndsWith (s t : String) : Bool := t.data.reverse.isPrefixOf s.data.reverse

/-- The renamer's image filter: `f.lower().endswith(('.jpg', '.jpeg', '.png'))`. -/
def isImgFile (f : String) : Bool :=
  strEndsWith (lowStr f) ".jpg" || strEndsWith (lowStr f) ".jpeg" || strEndsWith (lowStr f) ".png"

/-- The renamer's label filter: `f.lower().endswith('.txt')`. -/
def isLblFile (f : String) : Bool := strEndsWith (lowStr f) ".txt"

/-- Lexicographic comparison of character lists by code point (Python string
`<`). -/
def lexLt : List Char → List Char → Bool
  | [], [] => false
  | [], _ :: _ => true
  | _ :: _, [] => false
  | a :: as, b :: bs => if a < b then true else if b < a then false else lexLt as bs

/-- The total preorder `a ≤ b` used by `sorted(...)`. -/
def strLe (a b : String) : Prop := lexLt b.data a.data = false

instance : DecidableRel strLe := fun a b =>
  inferInstanceAs (Decidable (lexLt b.data a.data = false))

/-- Model of Python `sorted(...)` on strings. -/
def sortStrings (l : List String) : List String := l.insertionSort strLe

/-- The `d` low-order decimal digits of `a`, most significant first. -/
def digList : Nat → Nat → List Char
  | 0, _ => []
  | d + 1, a => Nat.digitChar (a / 10 ^ d) :: digList d (a % 10 ^ d)

/-- Model of `f"{n:05d}"`, exact for `n < 100000`. -/
def pad5 (n : Nat) : String := ⟨digList 5 n⟩

/-- Model of `os.path.splitext(f)[1]`: the part of the name from the last dot
on, empty when there is no dot or only leading dots precede it. -/
def extOfSplitext (f : String) : String :=
  if (f.data.reverse.takeWhile (fun c => decide (c ≠ '.'))).length = f.data.length then ""
  else if (f.data.take (f.data.length -
      (f.data.reverse.takeWhile (fun c => decide (c ≠ '.'))).length - 1)).any
      (fun c => decide (c ≠ '.')) then
    ⟨'.' :: (f.data.reverse.takeWhile (fun c => decide (c ≠ '.'))).reverse⟩
  else ""

/-- One `os.rename(src, tgt)` request recorded by the renamer. -/
structure ROp where
  onImages : Bool
  src : String
  tgt : String
deriving DecidableEq

/-- Renamer state: the two directory listings, the renames performed, and
whether the split was aborted with an error. -/
structure RenState where
  imgs : List String
  lbls : List String
  ops : List ROp
  error : Bool
deriving DecidableEq

/-- Effect of `os.rename(src, tgt)` on a directory listing: `src` disappears,
`tgt` is (over)written. -/
def renameFile (dir : List String) (src tgt : String) : List String :=
  ((dir.erase src).erase tgt) ++ [tgt]

/-- One iteration of the renamer's loop on `(idx, (img_file, lbl_file))`:
skip when both names already match the zero-padded target, else rename the
image and the label. -/
def renStep (st : RenState) (p : Nat × String × String) : RenState :=
  let newImg := pad5 p.1 ++ extOfSplitext p.2.1
  let newLbl := pad5 p.1 ++ ".txt"
  if p.2.1 = newImg ∧ p.2.2 = newLbl then st
  else
    { imgs := renameFile st.imgs p.2.1 newImg,
      lbls := renameFile st.lbls p.2.2 newLbl,
      ops := st.ops ++ [⟨true, p.2.1, newImg⟩, ⟨false, p.2.2, newLbl⟩],
      error := st.error }

/-- The renamer's loop as a fold (the `for idx, (img_file, lbl_file)` loop). -/
def renLoop (st : RenState) (ps : List (Nat × String × String)) : RenState :=
  ps.foldl renStep st

/-- `rename_image_label_pairs` on one split: filter and sort both listings,
abort with an error (and no mutation) on a count mismatch, else run the
rename loop over the zipped, enumerated pairs. -/
def rename_image_label_pairs (images labels : List String) : RenState :=
  let I := sortStrings (images.filter isImgFile)
  let L := sortStrings (labels.filter isLblFile)
  if I.length ≠ L.length then ⟨images, labels, [], true⟩
  else renLoop ⟨images, labels, [], false⟩ ((I.zip L).enum)

/-- A well-formed image name for the dense-renumbering theorem: its
`splitext` extension, lowercased, is one of the filtered image extensions. -/
def goodImg (f : String) : Bool :=
  decide (lowStr (extOfSplitext f) ∈ [".jpg", ".jpeg", ".png"])

/-- Target image name of sorted position `k`. -/
def imgTarget (I : List String) (k : Nat) : String :=
  pad5 k ++ extOfSplitext (I.getD k "")

/-- Target label name of sorted position `k`. -/
def lblTarget (k : Nat) : String := pad5 k ++ ".txt"

/-- No sorted file at a position `j` is named like the rename target of an
earlier position `i < j` (the collision-freedom precondition). -/
def noCollisionB (I L : List String) : Bool :=
  (List.range I.length).all fun j =>
    (List.range j).all fun i =>
      decide (I.getD j "" ≠ pad5 i ++ extOfSplitext (I.getD i "")) &&
      decide (L.getD j "" ≠ pad5 i ++ ".txt")

theorem reduceLine_cases (line : String) (hp : lineParsesB line = true) :
    (mergeLineB line = true ∧
       reduceLine line = .ok (some (rewriteLine (pySplitWS (pyStrip line)))))
    ∨ (mergeLineB line = false ∧ reduceLine line = .ok none) := by
  unfold lineParsesB at hp
  unfold reduceLine mergeLineB classOfLine
  by_cases h5 : (pySplitWS (pyStrip line)).length < 5
  · right
    simp [h5]
  · rw [Bool.or_eq_true] at hp
    have hp2 : (pyInt? ((pySplitWS (pyStrip line)).headD "")).isSome = true := by
      rcases hp with hp | hp
      · exact absurd (of_decide_eq_true hp) h5
      · exact hp
    simp only [h5, if_false]
    obtain ⟨c, hc⟩ := Option.isSome_iff_exists.mp hp2
    simp only [hc]
    by_cases hd : c ∈ DELETE_CLASSES
    · have hm : c ∉ MERGE_TO_MILITARY := by
        simp only [DELETE_CLASSES, List.mem_cons, List.not_mem_nil, or_false] at hd
        rcases hd with rfl | rfl | rfl <;> decide
      right
      simp [hd, hm]
    · by_cases hm : c ∈ MERGE_TO_MILITARY
      · left
        simp [hd, hm]
      · right
        simp [hd, hm]

/-- **C6** (amended): the remapper skips lines with fewer than 5
whitespace-separated fields without raising, and such lines contribute nothing
to the rewritten file; moreover on any file in which every line of 5 or more
fields has an integer-parsable first field, processing completes without
raising.  (As originally stated the claim is false: a line with 5 or more
fields whose class id is not numeric raises `ValueError`, see the
counterexample.) -/
theorem c6_remap_lenient_skip :
    (∀ line ls, (pySplitWS (pyStrip line)).length < 5 →
       reduceLines (line :: ls) = reduceLines ls)
    ∧ (∀ lines, (∀ l ∈ lines, lineParsesB l = true) →
       ∃ outs, reduceLines lines = .ok outs) := by
  constructor
  · intro line ls h
    simp [reduceLines, reduceLine, h]
  · intro lines h
    induction lines with
    | nil => exact ⟨[], rfl⟩
    | cons l ls ih =>
      obtain ⟨outs, ho⟩ := ih (fun x hx => h x (List.mem_cons_of_mem _ hx))
      rcases reduceLine_cases l (h l (List.mem_cons_self _ _)) with ⟨_, he⟩ | ⟨_, he⟩
      · exact ⟨rewriteLine (pySplitWS (pyStrip l)) :: outs, by simp [reduceLines, he, ho]⟩
      · exact ⟨outs, by simp [reduceLines, he, ho]⟩

/-- **C6** witness: a short line is skipped, and a fully parsable file
processes without raising. -/
theorem c6_witness :
    reduceLines ["1 2", "2 0.5 0.5 0.5 0.5"] = reduceLines ["2 0.5 0.5 0.5 0.5"]
    ∧ ∃ outs, reduceLines ["2 0.5 0.5 0.5 0.5"] = .ok outs :=
  ⟨c6_remap_lenient_skip.1 "1 2" _ (by decide),
   c6_remap_lenient_skip.2 _ (by decide)⟩

/-- **C6** counterexample: a 5-field line with a non-numeric class id makes
`process_label_file` raise (`.error`), and a 6-field line (wrong field count)
with a merge-domain class id *does* appear in the rewritten file — both
contradicting the claim that malformed lines are skipped and never raise. -/
theorem c6_counterexample :
    process_label_file "x 0.1 0.2 0.3 0.4" = .error ()
    ∧ process_label_file "2 0.5 0.5 0.5 0.5 9" = .ok ["0 0.5 0.5 0.5 0.5 9\n"] :=
  ⟨rfl, rfl⟩

/-- **C2** (amended): records whose class id is in neither the delete set nor
the merge domain are *dropped*, not passed through; for any label file on
which processing does not raise, the surviving record count equals the number
of lines whose class id lies in the merge mapping's domain. -/
theorem c2_remap_survivor_count (lines : List String)
    (h : ∀ l ∈ lines, lineParsesB l = true) :
    ∃ outs, reduceLines lines = .ok outs ∧ outs.length = lines.countP mergeLineB := by
  induction lines with
  | nil => exact ⟨[], rfl, rfl⟩
  | cons l ls ih =>
    obtain ⟨outs, ho, hc⟩ := ih (fun x hx => h x (List.mem_cons_of_mem _ hx))
    rcases reduceLine_cases l (h l (List.mem_cons_self _ _)) with ⟨hm, he⟩ | ⟨hm, he⟩
    · refine ⟨rewriteLine (pySplitWS (pyStrip l)) :: outs,
        by simp [reduceLines, he, ho], ?_⟩
      simp [List.countP_cons, hm, hc]
    · refine ⟨outs, by simp [reduceLines, he, ho], ?_⟩
      simp [List.countP_cons, hm, hc]

/-- **C2** witness: of three records (deleted class 0, merged class 2,
unmentioned class 9) exactly one — the merge-domain one — survives. -/
theorem c2_witness :
    ∃ outs,
      reduceLines ["0 0.5 0.5 0.5 0.5", "2 0.5 0.5 0.5 0.5", "9 0.5 0.5 0.5 0.5"] = .ok outs ∧
      outs.length =
        (["0 0.5 0.5 0.5 0.5", "2 0.5 0.5 0.5 0.5", "9 0.5 0.5 0.5 0.5"]).countP mergeLineB :=
  c2_remap_survivor_count _ (by decide)

/-- **C2** counterexample: the record with class id 6 is in neither the delete
set nor the merge domain, yet it is dropped — the claim predicts a surviving
count of 1 (original 1 minus 0 deleted) but the rewritten file is empty. -/
theorem c2_counterexample :
    process_label_file "6 0.1 0.1 0.1 0.1" = .ok []
    ∧ classOfLine "6 0.1 0.1 0.1 0.1" = some 6
    ∧ (6 : Int) ∉ DELETE_CLASSES ∧ (6 : Int) ∉ MERGE_TO_MILITARY :=
  ⟨rfl, rfl, by decide, by decide⟩

/-- **C3** (amended): on any label file on which processing does not raise,
the output is exactly the merge-domain records, in their original relative
order, each rewritten to carry `NEW_CLASS_ID`; every surviving record's
*original* class id is in the merge domain and not in the delete set.  (As
originally stated the claim is false: the rewritten class id `NEW_CLASS_ID = 0`
is itself a member of `DELETE_CLASSES`, see the counterexample.) -/
theorem c3_remap_rewrite (lines : List String)
    (h : ∀ l ∈ lines, lineParsesB l = true) :
    (∃ outs, reduceLines lines = .ok outs ∧
       outs = (lines.filter mergeLineB).map (fun l => rewriteLine (pySplitWS (pyStrip l))))
    ∧ (∀ l, mergeLineB l = true →
         ∃ c, classOfLine l = some c ∧ c ∈ MERGE_TO_MILITARY ∧ c ∉ DELETE_CLASSES) := by
  constructor
  · induction lines with
    | nil => exact ⟨[], rfl, rfl⟩
    | cons l ls ih =>
      obtain ⟨outs, ho, hs⟩ := ih (fun x hx => h x (List.mem_cons_of_mem _ hx))
      rcases reduceLine_cases l (h l (List.mem_cons_self _ _)) with ⟨hm, he⟩ | ⟨hm, he⟩
      · exact ⟨rewriteLine (pySplitWS (pyStrip l)) :: outs,
          by simp [reduceLines, he, ho], by simp [List.filter_cons, hm, hs]⟩
      · exact ⟨outs, by simp [reduceLines, he, ho], by simp [List.filter_cons, hm, hs]⟩
  · intro l hm
    unfold mergeLineB at hm
    cases hcl : classOfLine l with
    | none => rw [hcl] at hm; exact absurd hm (by simp)
    | some c =>
      rw [hcl] at hm
      have hc : c ∈ MERGE_TO_MILITARY := of_decide_eq_true hm
      refine ⟨c, rfl, hc, ?_⟩
      simp only [MERGE_TO_MILITARY, List.mem_cons, List.not_mem_nil, or_false] at hc
      rcases hc with rfl | rfl | rfl <;> decide

/-- **C3** witness: class 1 is deleted, class 3 is merged; the output is the
single merged record rewritten with class id 0, in order. -/
theorem c3_witness :
    (∃ outs, reduceLines ["1 0.2 0.2 0.2 0.2", "3 0.5 0.5 0.5 0.5"] = .ok outs ∧
       outs = ((["1 0.2 0.2 0.2 0.2", "3 0.5 0.5 0.5 0.5"].filter mergeLineB).map
         (fun l => rewriteLine (pySplitWS (pyStrip l)))))
    ∧ (∀ l, mergeLineB l = true →
         ∃ c, classOfLine l = some c ∧ c ∈ MERGE_TO_MILITARY ∧ c ∉ DELETE_CLASSES) :=
  c3_remap_rewrite _ (by decide)

/-- **C3** counterexample: the surviving rewritten record carries class id 0,
which *is* in the delete set — contradicting "no surviving record's class id
is in the delete set" as literally stated. -/
theorem c3_counterexample :
    process_label_file "2 0.5 0.5 0.5 0.5" = .ok ["0 0.5 0.5 0.5 0.5\n"]
    ∧ classOfLine "0 0.5 0.5 0.5 0.5\n" = some 0
    ∧ (0 : Int) ∈ DELETE_CLASSES :=
  ⟨rfl, rfl, by decide⟩

theorem data_append_eq (a b : String) : (a ++ b).data = a.data ++ b.data := by
  cases a; cases b; rfl

theorem string_mk_eq {a b : String} (h : a.data = b.data) : a = b := by
  cases a; cases b; exact congrArg String.mk h

theorem append_right_ne (s : String) {a b : String} (h : a ≠ b) : s ++ a ≠ s ++ b := by
  intro he
  apply h
  have hd := congrArg String.data he
  rw [data_append_eq, data_append_eq] at hd
  exact string_mk_eq (List.append_cancel_left hd)

theorem lookup_fsDelete_self (l : List (String × String)) (k : String) :
    (fsDelete l k).lookup k = none := by
  induction l with
  | nil => rfl
  | cons p ps ih =>
    obtain ⟨pk, pv⟩ := p
    rw [fsDelete] at ih ⊢
    rw [List.filter_cons]
    by_cases hp : pk = k
    · rw [if_neg (by simp [hp])]
      exact ih
    · rw [if_pos (by simp [hp])]
      have hk : (k == pk) = false := by simp [Ne.symm hp]
      simp only [List.lookup, hk]
      exact ih

theorem lookup_fsDelete_ne (l : List (String × String)) (k k' : String) (h : k' ≠ k) :
    (fsDelete l k).lookup k' = l.lookup k' := by
  induction l with
  | nil => rfl
  | cons p ps ih =>
    obtain ⟨pk, pv⟩ := p
    rw [fsDelete] at ih ⊢
    rw [List.filter_cons]
    by_cases hp : pk = k
    · rw [if_neg (by simp [hp])]
      rw [ih]
      have hk : (k' == pk) = false := by
        apply beq_eq_false_iff_ne.mpr
        intro he
        exact h (he.trans hp)
      simp [List.lookup, hk]
    · rw [if_pos (by simp [hp])]
      by_cases hk : k' = pk
      · simp [List.lookup, hk]
      · have hkb : (k' == pk) = false := beq_eq_false_iff_ne.mpr hk
        simp only [List.lookup, hkb]
        exact ih

theorem lookup_fsWrite_self (l : List (String × String)) (k v : String) :
    (fsWrite l k v).lookup k = some v := by
  induction l with
  | nil => simp [fsWrite, List.lookup]
  | cons p ps ih =>
    obtain ⟨pk, pv⟩ := p
    rw [fsWrite] at ih ⊢
    rw [List.filter_cons]
    by_cases hp : pk = k
    · rw [if_neg (by simp [hp])]
      exact ih
    · rw [if_pos (by simp [hp]), List.cons_append]
      have hk : (k == pk) = false := by simp [Ne.symm hp]
      simp only [List.lookup, hk]
      exact ih

/-- **C1** (amended): fixer state machine per sample.  If the backup content is
valid under the codec, apply mode overwrites the primary with the backup's
content and deletes the backup, leaving the images untouched.  Otherwise
(backup absent, empty or invalid) it deletes the primary, the backup, and the
paired image *provided the image has one of the extensions
`.jpg`/`.jpeg`/`.png`/`.bmp`* — an image with another allowed extension (e.g.
`.gif`) is left behind, so the sample is not always "fully removed" as the
original claim states (see the counterexample). -/
theorem c1_fixer_state_machine (numClasses : Nat) (fs : FixerFS) (stem : String) :
    (is_valid_yolo_format numClasses ((fs.labels.lookup (stem ++ ".bak")).getD "") = true →
       (process_label_pair numClasses fs stem).labels.lookup (stem ++ ".txt")
           = some ((fs.labels.lookup (stem ++ ".bak")).getD "")
       ∧ (process_label_pair numClasses fs stem).labels.lookup (stem ++ ".bak") = none
       ∧ (process_label_pair numClasses fs stem).images = fs.images)
    ∧ (is_valid_yolo_format numClasses ((fs.labels.lookup (stem ++ ".bak")).getD "") = false →
       (process_label_pair numClasses fs stem).labels.lookup (stem ++ ".txt") = none
       ∧ (process_label_pair numClasses fs stem).labels.lookup (stem ++ ".bak") = none
       ∧ ((imgCandidates stem).countP (fun e => decide (e ∈ fs.images)) ≤ 1 →
           ∀ e ∈ imgCandidates stem, e ∉ (process_label_pair numClasses fs stem).images)) := by
  have htb : stem ++ ".txt" ≠ stem ++ ".bak" := append_right_ne stem (by decide)
  constructor
  · intro hv
    rw [process_label_pair]
    simp only [hv, if_true]
    refine ⟨?_, ?_, by trivial⟩
    · rw [lookup_fsDelete_ne _ _ _ htb]
      exact lookup_fsWrite_self _ _ _
    · exact lookup_fsDelete_self _ _
  · intro hv
    rw [process_label_pair]
    simp only [hv, Bool.false_eq_true, if_false]
    refine ⟨?_, ?_, ?_⟩
    · rw [lookup_fsDelete_ne _ _ _ htb]
      exact lookup_fsDelete_self _ _
    · exact lookup_fsDelete_self _ _
    · intro hcount e he hmemF
      rw [List.mem_filter] at hmemF
      obtain ⟨hmem, hneB⟩ := hmemF
      have heq : e = resolveImg fs.images stem := by
        simp only [imgCandidates, List.mem_cons, List.not_mem_nil, or_false] at he
        rw [resolveImg]
        rcases he with rfl | rfl | rfl | rfl
        · rw [if_pos hmem]
        · by_cases h1 : (stem ++ ".jpg") ∈ fs.images
          · exfalso
            simp [imgCandidates, List.countP_cons, h1, hmem] at hcount
          · rw [if_neg h1, if_pos hmem]
        · by_cases h1 : (stem ++ ".jpg") ∈ fs.images
          · exfalso
            simp [imgCandidates, List.countP_cons, h1, hmem] at hcount
          · by_cases h2 : (stem ++ ".jpeg") ∈ fs.images
            · exfalso
              simp [imgCandidates, List.countP_cons, h2, hmem] at hcount
              all_goals split_ifs at hcount <;> omega
            · rw [if_neg h1, if_neg h2, if_pos hmem]
        · by_cases h1 : (stem ++ ".jpg") ∈ fs.images
          · exfalso
            simp [imgCandidates, List.countP_cons, h1, hmem] at hcount
          · by_cases h2 : (stem ++ ".jpeg") ∈ fs.images
            · exfalso
              simp [imgCandidates, List.countP_cons, h2, hmem] at hcount
              all_goals split_ifs at hcount <;> omega
            · by_cases h3 : (stem ++ ".png") ∈ fs.images
              · exfalso
                simp [imgCandidates, List.countP_cons, h3, hmem] at hcount
                all_goals split_ifs at hcount
                all_goals omega
              · rw [if_neg h1, if_neg h2, if_neg h3, if_pos hmem]
      rw [heq] at hneB
      simp at hneB

/-- **C1** witness: sample `A` (valid backup) gets the backup promoted and the
backup removed with the image kept; sample `B` (no backup) loses primary,
backup slot and its `.jpg` image. -/
theorem c1_witness :
    (process_label_pair 6
        ⟨[("A.txt", "0 0.5 0.5 0.2 0.2"), ("A.bak", "0 0.4 0.4 0.1 0.1")], ["A.jpg"]⟩
        "A").labels.lookup ("A" ++ ".txt") = some "0 0.4 0.4 0.1 0.1"
    ∧ (process_label_pair 6
        ⟨[("A.txt", "0 0.5 0.5 0.2 0.2"), ("A.bak", "0 0.4 0.4 0.1 0.1")], ["A.jpg"]⟩
        "A").images = ["A.jpg"]
    ∧ (process_label_pair 6 ⟨[("B.txt", "0 0.5 0.5 0.2 0.2")], ["B.jpg"]⟩
        "B").labels.lookup ("B" ++ ".txt") = none
    ∧ ("B" ++ ".jpg") ∉ (process_label_pair 6
        ⟨[("B.txt", "0 0.5 0.5 0.2 0.2")], ["B.jpg"]⟩ "B").images := by
  refine ⟨?_, ?_, ?_, ?_⟩
  · exact ((c1_fixer_state_machine 6
      ⟨[("A.txt", "0 0.5 0.5 0.2 0.2"), ("A.bak", "0 0.4 0.4 0.1 0.1")], ["A.jpg"]⟩
      "A").1 (by decide)).1
  · exact ((c1_fixer_state_machine 6
      ⟨[("A.txt", "0 0.5 0.5 0.2 0.2"), ("A.bak", "0 0.4 0.4 0.1 0.1")], ["A.jpg"]⟩
      "A").1 (by decide)).2.2
  · exact ((c1_fixer_state_machine 6
      ⟨[("B.txt", "0 0.5 0.5 0.2 0.2")], ["B.jpg"]⟩ "B").2 (by decide)).1
  · exact ((c1_fixer_state_machine 6
      ⟨[("B.txt", "0 0.5 0.5 0.2 0.2")], ["B.jpg"]⟩ "B").2 (by decide)).2.2
      (by decide) ("B" ++ ".jpg") (by simp [imgCandidates])

/-- **C1** counterexample: a sample whose (absent) backup is invalid and whose
paired image is `a.gif` keeps its image after an apply-mode run — the delete
branch only considers `.jpg`/`.jpeg`/`.png`/`.bmp`, so the sample is *not*
fully removed as the claim states. -/
theorem c1_counterexample :
    (process_label_pair 6 ⟨[("a.txt", "0 0.5 0.5 0.2 0.2")], ["a.gif"]⟩ "a").images = ["a.gif"]
    ∧ (process_label_pair 6 ⟨[("a.txt", "0 0.5 0.5 0.2 0.2")], ["a.gif"]⟩ "a").labels = []
    ∧ is_valid_yolo_format 6
        ((FixerFS.labels ⟨[("a.txt", "0 0.5 0.5 0.2 0.2")], ["a.gif"]⟩ |>.lookup ("a" ++ ".bak")).getD "")
        = false := by
  refine ⟨rfl, rfl, rfl⟩

/-- **C7** (amended): per-line behavior of the validator's file scan.  A
5-field parsable line with out-of-range *coordinates* emits only a warning and
scanning continues (the line still counts as an object); a 5-field parsable
line with an out-of-range *class id* increments the same `invalid_format`
counter as a parse failure and aborts further line checks for the file, and so
do a wrong field count (`MalformedLine`) and a non-numeric field
(`ValueError`).  (As originally stated the claim is false: class-out-of-range
aborts the file instead of continuing, and is not recorded as a distinct
issue kind — see the counterexample.) -/
theorem c7_validator_line_handling (numC : Nat) (l : String) (ls : List String) (n : Nat) :
    (lineVerdict numC l = .coordWarn →
       scanLines numC (l :: ls) n =
         ⟨(scanLines numC ls (n + 1)).objects + 1, (scanLines numC ls (n + 1)).invalid,
          .coordWarn n :: (scanLines numC ls (n + 1)).events⟩)
    ∧ (lineVerdict numC l = .classOOR → scanLines numC (l :: ls) n = ⟨0, 1, [.classOOR n]⟩)
    ∧ (lineVerdict numC l = .malformed → scanLines numC (l :: ls) n = ⟨0, 1, [.malformed n]⟩)
    ∧ (lineVerdict numC l = .valueErr → scanLines numC (l :: ls) n = ⟨0, 1, [.valueErr n]⟩) := by
  refine ⟨?_, ?_, ?_, ?_⟩ <;> intro h <;> simp [scanLines, h]

/-- **C7** witness: the spec's own scenario line `1 2.0 0.1 0.1 0.1` with
`num_classes = 2` is a coordinate warning and the scan continues; a class-id
7 line aborts. -/
theorem c7_witness :
    scanLines 2 ["1 2.0 0.1 0.1 0.1"] 1 =
      ⟨(scanLines 2 [] 2).objects + 1, (scanLines 2 [] 2).invalid,
       .coordWarn 1 :: (scanLines 2 [] 2).events⟩
    ∧ scanLines 2 ["7 0.1 0.1 0.1 0.1", "0 0.5 0.5 0.2 0.2"] 1 = ⟨0, 1, [.classOOR 1]⟩ :=
  ⟨(c7_validator_line_handling 2 "1 2.0 0.1 0.1 0.1" [] 1).1 (by decide),
   (c7_validator_line_handling 2 "7 0.1 0.1 0.1 0.1" ["0 0.5 0.5 0.2 0.2"] 1).2.1 (by decide)⟩

/-- **C7** counterexample: with `num_classes = 2`, a first line whose class id
(7) is out of range aborts the scan — the fully valid second line contributes
no object (result `⟨0, 1, …⟩`), although alone it scans as one valid object.
The claim instead says scanning continues with the remaining lines. -/
theorem c7_counterexample :
    scanLines 2 ["7 0.5 0.5 0.5 0.5", "0 0.5 0.5 0.5 0.5"] 1 = ⟨0, 1, [.classOOR 1]⟩
    ∧ scanLines 2 ["0 0.5 0.5 0.5 0.5"] 2 = ⟨1, 0, []⟩ :=
  ⟨rfl, rfl⟩

theorem readEventsFor_all_read (l : List (String × String)) :
    (readEventsFor l).all isReadEvent = true := by
  induction l with
  | nil => rfl
  | cons p ps ih => simpa [readEventsFor, isReadEvent] using ih

theorem applyEvents_of_reads (fs : ValFS) (evs : List FsEvent)
    (h : evs.all isReadEvent = true) : applyEvents fs evs = fs := by
  induction evs generalizing fs with
  | nil => rfl
  | cons e es ih =>
    rw [List.all_cons, Bool.and_eq_true] at h
    have he : applyEvent fs e = fs := by
      cases e with
      | writeFile n c => simp [isReadEvent] at h
      | deleteFile n => simp [isReadEvent] at h
      | listImages => rfl
      | listLabels => rfl
      | statFile n => rfl
      | readFile n => rfl
    rw [applyEvents, List.foldl_cons, he]
    exact ih fs h.2

/-- **C9**: split validation is read-only and repeatable: every filesystem
event `validate_split` performs is a read, replaying its event trace leaves
the dataset unchanged, and running it again on the resulting dataset produces
the same report.  (It is total by construction — every parse problem becomes
a recorded count rather than an exception.) -/
theorem c9_validate_read_only (numC : Nat) (fs : ValFS) :
    (validate_split numC fs).2.all isReadEvent = true
    ∧ applyEvents fs (validate_split numC fs).2 = fs
    ∧ (validate_split numC (applyEvents fs (validate_split numC fs).2)).1
        = (validate_split numC fs).1 := by
  have hsnd : (validate_split numC fs).2 =
      [FsEvent.listImages, FsEvent.listLabels] ++ readEventsFor (labeledFiles fs) := rfl
  have hall : (validate_split numC fs).2.all isReadEvent = true := by
    rw [hsnd, List.all_append]
    simp [readEventsFor_all_read, isReadEvent]
  have happ : applyEvents fs (validate_split numC fs).2 = fs :=
    applyEvents_of_reads fs _ hall
  exact ⟨hall, happ, by rw [happ]⟩

/-- **C10**: the validator's valid-image statistics are gated on the
split-wide `invalid_format` counter: once it is positive, no later file of
the split — however valid — is added to the valid-image count, the total
object count, or the objects-per-image list. -/
theorem c10_split_wide_gate (numC : Nat) (files : List (String × String))
    (st : SplitAcc) (h : 0 < st.invalid_format) :
    (validateFiles numC st files).valid_images = st.valid_images
    ∧ (validateFiles numC st files).total_objects = st.total_objects
    ∧ (validateFiles numC st files).objects_per_image = st.objects_per_image := by
  induction files generalizing st with
  | nil => exact ⟨rfl, rfl, rfl⟩
  | cons p ps ih =>
    have hstep : (stepFile numC st p).valid_images = st.valid_images
        ∧ (stepFile numC st p).total_objects = st.total_objects
        ∧ (stepFile numC st p).objects_per_image = st.objects_per_image
        ∧ 0 < (stepFile numC st p).invalid_format := by
      rw [stepFile]
      by_cases he : p.2 = ""
      · simp only [he, if_true]
        exact ⟨by trivial, by trivial, by trivial, h⟩
      · simp only [he, if_false]
        have hgate : ¬ (st.invalid_format + (scanLines numC (splitLines p.2) 1).invalid = 0) := by
          omega
        simp only [hgate, if_false]
        exact ⟨by trivial, by trivial, by trivial,
          by simpa using Nat.lt_of_lt_of_le h (Nat.le_add_right _ _)⟩
    obtain ⟨h1, h2, h3, h4⟩ := hstep
    have hrec := ih (stepFile numC st p) h4
    rw [validateFiles, List.foldl_cons]
    rw [validateFiles] at hrec
    exact ⟨hrec.1.trans h1, hrec.2.1.trans h2, hrec.2.2.trans h3⟩

/-- **C10** witness: with the split-wide counter already 1, a file whose every
line is valid is still excluded from all three statistics. -/
theorem c10_witness :
    (validateFiles 6 ⟨0, 1, 0, 0, []⟩ [("b.txt", "0 0.5 0.5 0.2 0.2")]).valid_images = 0
    ∧ (validateFiles 6 ⟨0, 1, 0, 0, []⟩ [("b.txt", "0 0.5 0.5 0.2 0.2")]).total_objects = 0
    ∧ (validateFiles 6 ⟨0, 1, 0, 0, []⟩ [("b.txt", "0 0.5 0.5 0.2 0.2")]).objects_per_image = [] :=
  c10_split_wide_gate 6 [("b.txt", "0 0.5 0.5 0.2 0.2")] ⟨0, 1, 0, 0, []⟩ (by decide)

/-- **C8**: when the image-file count and label-file count of a split differ,
the renamer aborts the split before any rename: the directory listings are
returned unchanged, no rename operation is recorded, and the error flag is
set. -/
theorem c8_renumber_mismatch_aborts (images labels : List String)
    (h : (images.filter isImgFile).length ≠ (labels.filter isLblFile).length) :
    rename_image_label_pairs images labels = ⟨images, labels, [], true⟩ := by
  have h1 : (sortStrings (images.filter isImgFile)).length = (images.filter isImgFile).length :=
    (List.perm_insertionSort strLe _).length_eq
  have h2 : (sortStrings (labels.filter isLblFile)).length = (labels.filter isLblFile).length :=
    (List.perm_insertionSort strLe _).length_eq
  rw [rename_image_label_pairs, if_pos]
  rw [h1, h2]
  exact h

/-- **C8** witness: the spec's scenario — 5 images, 4 labels — aborts with an
error and zero mutation. -/
theorem c8_witness :
    rename_image_label_pairs ["a.jpg", "b.jpg", "c.jpg", "d.jpg", "e.jpg"]
        ["a.txt", "b.txt", "c.txt", "d.txt"]
      = ⟨["a.jpg", "b.jpg", "c.jpg", "d.jpg", "e.jpg"], ["a.txt", "b.txt", "c.txt", "d.txt"],
         [], true⟩ :=
  c8_renumber_mismatch_aborts _ _ (by decide)

/-- **C4** (code bug): the renamer *does* assign a target name that is still
pending as the source of a not-yet-processed sample.  On sorted images
`["!.jpg", "00000.jpg"]` the first recorded rename has target `00000.jpg`,
which is exactly the source of the third recorded rename (the second,
not-yet-processed sample): `os.rename` overwrites it, and of the two images
only one file remains after the run — a sample was destroyed. -/
theorem c4_collision_overwrites_pending :
    (rename_image_label_pairs ["!.jpg", "00000.jpg"] ["!.txt", "00000.txt"]).ops =
      [⟨true, "!.jpg", "00000.jpg"⟩, ⟨false, "!.txt", "00000.txt"⟩,
       ⟨true, "00000.jpg", "00001.jpg"⟩, ⟨false, "00000.txt", "00001.txt"⟩]
    ∧ (rename_image_label_pairs ["!.jpg", "00000.jpg"] ["!.txt", "00000.txt"]).imgs
        = ["00001.jpg"] :=
  ⟨by decide, by decide⟩

theorem lexLt_irrefl : ∀ a : List Char, lexLt a a = false := by
  intro a
  induction a with
  | nil => rfl
  | cons x xs ih => simp [lexLt, lt_irrefl, ih]

theorem ne_of_lexLt {a b : List Char} (h : lexLt a b = true) : a ≠ b := by
  intro he
  rw [he, lexLt_irrefl] at h
  exact Bool.false_ne_true h

theorem lexLt_cons_self (x : Char) (as bs : List Char) :
    lexLt (x :: as) (x :: bs) = lexLt as bs := by
  simp [lexLt, lt_irrefl]

theorem lexLt_asymm : ∀ a b : List Char, lexLt a b = true → lexLt b a = false := by
  intro a
  induction a with
  | nil =>
    intro b h
    cases b with
    | nil => simp [lexLt] at h
    | cons y ys => rfl
  | cons x xs ih =>
    intro b h
    cases b with
    | nil => simp [lexLt] at h
    | cons y ys =>
      by_cases h1 : x < y
      · have h2 : ¬ y < x := lt_asymm h1
        simp [lexLt, h1, h2]
      · by_cases h2 : y < x
        · simp [lexLt, h1, h2] at h
        · have hxy : x = y := le_antisymm (not_lt.mp h2) (not_lt.mp h1)
          subst hxy
          rw [lexLt_cons_self] at h ⊢
          exact ih ys h

theorem lexLt_trans : ∀ a b c : List Char,
    lexLt a b = true → lexLt b c = true → lexLt a c = true := by
  intro a
  induction a with
  | nil =>
    intro b c h1 h2
    cases b with
    | nil => simp [lexLt] at h1
    | cons y ys =>
      cases c with
      | nil => simp [lexLt] at h2
      | cons z zs => rfl
  | cons x xs ih =>
    intro b c h1 h2
    cases b with
    | nil => simp [lexLt] at h1
    | cons y ys =>
      cases c with
      | nil => simp [lexLt] at h2
      | cons z zs =>
        by_cases hxy : x < y
        · by_cases hyz : y < z
          · simp [lexLt, lt_trans hxy hyz]
          · by_cases hzy : z < y
            · simp [lexLt, hyz, hzy] at h2
            · have : y = z := le_antisymm (not_lt.mp hzy) (not_lt.mp hyz)
              subst this
              simp [lexLt, hxy]
        · by_cases hyx : y < x
          · simp [lexLt, hxy, hyx] at h1
          · have : x = y := le_antisymm (not_lt.mp hyx) (not_lt.mp hxy)
            subst this
            simp only [lexLt, lt_irrefl, if_false] at h1
            by_cases hyz : x < z
            · simp [lexLt, hyz]
            · by_cases hzy : z < x
              · simp [lexLt, hyz, hzy] at h2
              · have : x = z := le_antisymm (not_lt.mp hzy) (not_lt.mp hyz)
                subst this
                rw [lexLt_cons_self] at h2 ⊢
                exact ih ys zs h1 h2

theorem eq_of_lexLt_false : ∀ a b : List Char,
    lexLt a b = false → lexLt b a = false → a = b := by
  intro a
  induction a with
  | nil =>
    intro b h1 _
    cases b with
    | nil => rfl
    | cons y ys => simp [lexLt] at h1
  | cons x xs ih =>
    intro b h1 h2
    cases b with
    | nil => simp [lexLt] at h2
    | cons y ys =>
      by_cases hxy : x < y
      · simp [lexLt, hxy] at h1
      · by_cases hyx : y < x
        · simp [lexLt, hyx] at h2
        · have hx : x = y := le_antisymm (not_lt.mp hyx) (not_lt.mp hxy)
          subst hx
          rw [lexLt_cons_self] at h1 h2
          rw [ih ys h1 h2]

theorem lexLt_append : ∀ (a b x y : List Char),
    a.length = b.length → lexLt a b = true → lexLt (a ++ x) (b ++ y) = true := by
  intro a
  induction a with
  | nil =>
    intro b x y hl h
    cases b with
    | nil => simp [lexLt] at h
    | cons z zs => simp at hl
  | cons u us ih =>
    intro b x y hl h
    cases b with
    | nil => simp at hl
    | cons v vs =>
      simp only [List.length_cons, Nat.succ_inj] at hl
      by_cases huv : u < v
      · simp [lexLt, huv]
      · by_cases hvu : v < u
        · simp [lexLt, huv, hvu] at h
        · have : u = v := le_antisymm (not_lt.mp hvu) (not_lt.mp huv)
          subst this
          rw [lexLt_cons_self] at h
          rw [List.cons_append, List.cons_append, lexLt_cons_self]
          exact ih vs x y hl h

theorem strLe_total : ∀ a b : String, strLe a b ∨ strLe b a := by
  intro a b
  by_cases h : lexLt b.data a.data = false
  · exact Or.inl h
  · exact Or.inr (lexLt_asymm _ _ (eq_true_of_ne_false h))

theorem strLe_trans : ∀ a b c : String, strLe a b → strLe b c → strLe a c := by
  intro a b c h1 h2
  by_contra hca
  have hca' : lexLt c.data a.data = true := eq_true_of_ne_false hca
  cases hb : lexLt b.data c.data with
  | false =>
    have : b.data = c.data := eq_of_lexLt_false _ _ hb h2
    rw [← this] at hca'
    exact Bool.false_ne_true (h1 ▸ hca')
  | true =>
    have : lexLt b.data a.data = true := lexLt_trans _ _ _ hb hca'
    exact Bool.false_ne_true (h1 ▸ this)

theorem strLe_antisymm : ∀ a b : String, strLe a b → strLe b a → a = b := by
  intro a b h1 h2
  exact string_mk_eq (eq_of_lexLt_false _ _ h2 h1)

theorem digitChar_mono : ∀ x < 10, ∀ y < 10, x < y → Nat.digitChar x < Nat.digitChar y := by
  decide

theorem digitChar_ne_dot (n : Nat) : Nat.digitChar n ≠ '.' := by
  by_cases h : n < 16
  · interval_cases n <;> decide
  · unfold Nat.digitChar
    repeat rw [if_neg (by omega)]
    decide

theorem digList_length (d : Nat) : ∀ a, (digList d a).length = d := by
  induction d with
  | zero => intro a; rfl
  | succ d ih => intro a; simp [digList, ih]

theorem digList_ne_dot (d : Nat) : ∀ a, ∀ c ∈ digList d a, c ≠ '.' := by
  induction d with
  | zero => intro a c hc; simp [digList] at hc
  | succ d ih =>
    intro a c hc
    rw [digList] at hc
    rcases List.mem_cons.mp hc with rfl | hc
    · exact digitChar_ne_dot _
    · exact ih _ c hc

theorem digList_lt (d : Nat) : ∀ a b, a < b → b < 10 ^ d →
    lexLt (digList d a) (digList d b) = true := by
  induction d with
  | zero =>
    intro a b hab hb
    exact absurd hb (by omega)
  | succ d ih =>
    intro a b hab hb
    rw [digList, digList]
    have hbd : b / 10 ^ d < 10 := by
      rw [Nat.div_lt_iff_lt_mul (Nat.pos_pow_of_pos d (by norm_num))]
      calc b < 10 ^ (d + 1) := hb
        _ = 10 * 10 ^ d := by ring
    have had : a / 10 ^ d ≤ b / 10 ^ d := Nat.div_le_div_right (le_of_lt hab)
    rcases lt_or_eq_of_le had with hlt | heq
    · have hchar : Nat.digitChar (a / 10 ^ d) < Nat.digitChar (b / 10 ^ d) :=
        digitChar_mono _ (lt_of_le_of_lt had hbd) _ hbd hlt
      simp [lexLt, hchar]
    · rw [heq, lexLt_cons_self]
      apply ih
      · have ha2 := Nat.div_add_mod a (10 ^ d)
        have hb2 := Nat.div_add_mod b (10 ^ d)
        rw [heq] at ha2
        omega
      · exact Nat.mod_lt _ (Nat.pos_pow_of_pos d (by norm_num))

theorem digList_ne (d : Nat) (a b : Nat) (hab : a ≠ b) (ha : a < 10 ^ d) (hb : b < 10 ^ d) :
    digList d a ≠ digList d b := by
  rcases lt_or_gt_of_ne hab with h | h
  · exact ne_of_lexLt (digList_lt d a b h hb)
  · exact (ne_of_lexLt (digList_lt d b a h ha)).symm

theorem pad5_append_ne {i k : Nat} (hik : i ≠ k) (hi : i < 100000) (hk : k < 100000)
    (e e' : String) : pad5 i ++ e ≠ pad5 k ++ e' := by
  intro he
  have hd := congrArg String.data he
  rw [data_append_eq, data_append_eq] at hd
  have h5 : (pad5 i).data.length = 5 := digList_length 5 i
  have h5' : (pad5 k).data.length = 5 := digList_length 5 k
  have t1 : List.take 5 ((pad5 i).data ++ e.data) = (pad5 i).data := by
    rw [← h5]; exact List.take_left _ _
  have t2 : List.take 5 ((pad5 k).data ++ e'.data) = (pad5 k).data := by
    rw [← h5']; exact List.take_left _ _
  have ht : (pad5 i).data = (pad5 k).data := by rw [← t1, ← t2, hd]
  have hp : (10 : Nat) ^ 5 = 100000 := by norm_num
  exact digList_ne 5 i k hik (by rw [hp]; exact hi) (by rw [hp]; exact hk) ht

theorem pad5_append_lexLt {i j : Nat} (hij : i < j) (hj : j < 100000) (e e' : String) :
    lexLt (pad5 i ++ e).data (pad5 j ++ e').data = true := by
  rw [data_append_eq, data_append_eq]
  have hp : (10 : Nat) ^ 5 = 100000 := by norm_num
  exact lexLt_append _ _ _ _ ((digList_length 5 i).trans (digList_length 5 j).symm)
    (digList_lt 5 i j hij (by rw [hp]; exact hj))

theorem takeWhile_all_append (p : Char → Bool) (a : List Char)
    (h : ∀ x ∈ a, p x = true) (b : List Char) :
    (a ++ b).takeWhile p = a ++ b.takeWhile p := by
  induction a with
  | nil => rfl
  | cons c cs ih =>
    rw [List.cons_append, List.takeWhile_cons, h c (List.mem_cons_self _ _)]
    simp [ih (fun x hx => h x (List.mem_cons_of_mem _ hx))]

theorem extOf_digits_append (ds rest : List Char) (hne : ds ≠ [])
    (hd : ∀ c ∈ ds, c ≠ '.') (hr : ∀ c ∈ rest, c ≠ '.') :
    extOfSplitext ⟨ds ++ '.' :: rest⟩ = ⟨'.' :: rest⟩ := by
  have hdata : (⟨ds ++ '.' :: rest⟩ : String).data = ds ++ '.' :: rest := rfl
  have hrev : (ds ++ '.' :: rest).reverse = rest.reverse ++ '.' :: ds.reverse := by
    rw [List.reverse_append, List.reverse_cons, List.append_assoc]
    rfl
  have htw : (ds ++ '.' :: rest).reverse.takeWhile (fun c => decide (c ≠ '.')) = rest.reverse := by
    rw [hrev, takeWhile_all_append]
    · rw [List.takeWhile_cons]
      simp
    · intro x hx
      simp only [decide_eq_true_eq]
      exact hr x (List.mem_reverse.mp hx)
  have hlen : (ds ++ '.' :: rest).length = ds.length + 1 + rest.length := by
    simp [List.length_append]
    omega
  rw [extOfSplitext]
  simp only [hdata, htw]
  rw [if_neg (by rw [List.length_reverse, hlen]; omega)]
  have hbase : (ds ++ '.' :: rest).take ((ds ++ '.' :: rest).length - rest.reverse.length - 1)
      = ds := by
    rw [List.length_reverse, hlen]
    have heq : ds.length + 1 + rest.length - rest.length - 1 = ds.length := by omega
    rw [heq]
    exact List.take_left ds ('.' :: rest)
  rw [hbase]
  have hany : ds.any (fun c => decide (c ≠ '.')) = true := by
    cases ds with
    | nil => exact absurd rfl hne
    | cons c cs =>
      simp only [List.any_cons, Bool.or_eq_true, decide_eq_true_eq]
      exact Or.inl (hd c (List.mem_cons_self _ _))
  rw [if_pos hany, List.reverse_reverse]

theorem lowChar_eq_dot {c : Char} (h : lowChar c = '.') : c = '.' := by
  by_cases h1 : c = 'A'
  · rw [h1] at h
    exact absurd h (by decide)
  by_cases h2 : c = 'B'
  · rw [h2] at h
    exact absurd h (by decide)
  by_cases h3 : c = 'C'
  · rw [h3] at h
    exact absurd h (by decide)
  by_cases h4 : c = 'D'
  · rw [h4] at h
    exact absurd h (by decide)
  by_cases h5 : c = 'E'
  · rw [h5] at h
    exact absurd h (by decide)
  by_cases h6 : c = 'F'
  · rw [h6] at h
    exact absurd h (by decide)
  by_cases h7 : c = 'G'
  · rw [h7] at h
    exact absurd h (by decide)
  by_cases h8 : c = 'H'
  · rw [h8] at h
    exact absurd h (by decide)
  by_cases h9 : c = 'I'
  · rw [h9] at h
    exact absurd h (by decide)
  by_cases h10 : c = 'J'
  · rw [h10] at h
    exact absurd h (by decide)
  by_cases h11 : c = 'K'
  · rw [h11] at h
    exact absurd h (by decide)
  by_cases h12 : c = 'L'
  · rw [h12] at h
    exact absurd h (by decide)
  by_cases h13 : c = 'M'
  · rw [h13] at h
    exact absurd h (by decide)
  by_cases h14 : c = 'N'
  · rw [h14] at h
    exact absurd h (by decide)
  by_cases h15 : c = 'O'
  · rw [h15] at h
    exact absurd h (by decide)
  by_cases h16 : c = 'P'
  · rw [h16] at h
    exact absurd h (by decide)
  by_cases h17 : c = 'Q'
  · rw [h17] at h
    exact absurd h (by decide)
  by_cases h18 : c = 'R'
  · rw [h18] at h
    exact absurd h (by decide)
  by_cases h19 : c = 'S'
  · rw [h19] at h
    exact absurd h (by decide)
  by_cases h20 : c = 'T'
  · rw [h20] at h
    exact absurd h (by decide)
  by_cases h21 : c = 'U'
  · rw [h21] at h
    exact absurd h (by decide)
  by_cases h22 : c = 'V'
  · rw [h22] at h
    exact absurd h (by decide)
  by_cases h23 : c = 'W'
  · rw [h23] at h
    exact absurd h (by decide)
  by_cases h24 : c = 'X'
  · rw [h24] at h
    exact absurd h (by decide)
  by_cases h25 : c = 'Y'
  · rw [h25] at h
    exact absurd h (by decide)
  by_cases h26 : c = 'Z'
  · rw [h26] at h
    exact absurd h (by decide)
  unfold lowChar at h
  rw [if_neg h1, if_neg h2, if_neg h3, if_neg h4, if_neg h5, if_neg h6, if_neg h7, if_neg h8, if_neg h9, if_neg h10, if_neg h11, if_neg h12, if_neg h13, if_neg h14, if_neg h15, if_neg h16, if_neg h17, if_neg h18, if_neg h19, if_neg h20, if_neg h21, if_neg h22, if_neg h23, if_neg h24, if_neg h25, if_neg h26] at h
  exact h

theorem map_lowChar_shape {l t : List Char} (h : l.map lowChar = '.' :: t)
    (ht : ∀ c ∈ t, c ≠ '.') : l = '.' :: l.tail ∧ (∀ c ∈ l.tail, c ≠ '.') := by
  cases l with
  | nil => simp at h
  | cons c cs =>
    rw [List.map_cons] at h
    injection h with h1 h2
    have hc : c = '.' := lowChar_eq_dot h1
    subst hc
    refine ⟨rfl, ?_⟩
    intro x hx hxdot
    have hmem : lowChar x ∈ cs.map lowChar := List.mem_map_of_mem _ hx
    rw [h2, hxdot] at hmem
    exact ht (lowChar '.') hmem rfl

theorem goodImg_shape (f : String) (h : goodImg f = true) :
    (extOfSplitext f).data = '.' :: (extOfSplitext f).data.tail
    ∧ ∀ c ∈ (extOfSplitext f).data.tail, c ≠ '.' := by
  rw [goodImg, decide_eq_true_eq] at h
  simp only [List.mem_cons, List.not_mem_nil, or_false] at h
  rcases h with h | h | h
  · exact map_lowChar_shape (congrArg String.data h) (by decide)
  · exact map_lowChar_shape (congrArg String.data h) (by decide)
  · exact map_lowChar_shape (congrArg String.data h) (by decide)

theorem dropWhile_head_false (p : Char → Bool) : ∀ (l : List Char) (d : Char) (ds : List Char),
    l.dropWhile p = d :: ds → p d = false := by
  intro l
  induction l with
  | nil => intro d ds h; simp at h
  | cons c cs ih =>
    intro d ds h
    rw [List.dropWhile_cons] at h
    by_cases hc : p c = true
    · rw [if_pos hc] at h
      exact ih d ds h
    · rw [if_neg hc] at h
      injection h with h1 _
      rw [← h1]
      simpa using hc

theorem extOf_decomp (f : String) (h : extOfSplitext f ≠ "") :
    f.data = ((f.data.reverse.dropWhile (fun c => decide (c ≠ '.'))).tail.reverse)
      ++ (extOfSplitext f).data := by
  by_cases h1 : (f.data.reverse.takeWhile (fun c => decide (c ≠ '.'))).length = f.data.length
  · exact absurd (by rw [extOfSplitext, if_pos h1]) h
  · by_cases h2 : ((f.data.take (f.data.length -
        (f.data.reverse.takeWhile (fun c => decide (c ≠ '.'))).length - 1)).any
        (fun c => decide (c ≠ '.'))) = true
    · have hext : (extOfSplitext f).data
          = '.' :: (f.data.reverse.takeWhile (fun c => decide (c ≠ '.'))).reverse := by
        rw [extOfSplitext, if_neg h1, if_pos h2]
      have hsplit := List.takeWhile_append_dropWhile (fun c => decide (c ≠ '.')) f.data.reverse
      cases hdw : f.data.reverse.dropWhile (fun c => decide (c ≠ '.')) with
      | nil =>
        exfalso
        rw [hdw, List.append_nil] at hsplit
        exact h1 (by rw [hsplit, List.length_reverse])
      | cons d ds =>
        have hd : d = '.' := by
          have hb := dropWhile_head_false _ _ _ _ hdw
          simpa using hb
        rw [hext]
        have hfd2 : f.data.reverse
            = (f.data.reverse.takeWhile (fun c => decide (c ≠ '.'))) ++ d :: ds := by
          rw [← hdw]
          exact hsplit.symm
        have hfd : f.data
            = ((f.data.reverse.takeWhile (fun c => decide (c ≠ '.'))) ++ d :: ds).reverse := by
          rw [← hfd2, List.reverse_reverse]
        conv_lhs => rw [hfd]
        rw [List.reverse_append, List.reverse_cons, List.append_assoc, hd]
        rfl
    · exact absurd (by rw [extOfSplitext, if_neg h1, if_neg h2]) h

theorem isPrefixOf_self_append : ∀ (l t : List Char), l.isPrefixOf (l ++ t) = true := by
  intro l
  induction l with
  | nil => intro t; simp [List.isPrefixOf]
  | cons c cs ih =>
    intro t
    simp only [List.cons_append, List.isPrefixOf, beq_self_eq_true, Bool.true_and]
    exact ih t

theorem strEndsWith_append (a t : String) : strEndsWith (a ++ t) t = true := by
  rw [strEndsWith, data_append_eq, List.reverse_append]
  exact isPrefixOf_self_append _ _

theorem lowStr_append (a b : String) : lowStr (a ++ b) = lowStr a ++ lowStr b := by
  apply string_mk_eq
  show ((a ++ b).data).map lowChar = ((lowStr a) ++ (lowStr b)).data
  rw [show (a ++ b).data = a.data ++ b.data from data_append_eq a b, List.map_append,
    show ((lowStr a) ++ (lowStr b)).data = (lowStr a).data ++ (lowStr b).data from
      data_append_eq _ _]
  rfl

theorem target_isImgFile (f : String) (h : goodImg f = true) (k : Nat) :
    isImgFile (pad5 k ++ extOfSplitext f) = true := by
  have he : strEndsWith (lowStr (pad5 k ++ extOfSplitext f)) (lowStr (extOfSplitext f))
      = true := by
    rw [lowStr_append]
    exact strEndsWith_append _ _
  rw [goodImg, decide_eq_true_eq] at h
  simp only [List.mem_cons, List.not_mem_nil, or_false] at h
  rcases h with h | h | h <;> rw [isImgFile] <;> rw [h] at he <;> simp [he]

theorem isLblFile_target (k : Nat) : isLblFile (pad5 k ++ ".txt") = true := by
  rw [isLblFile]
  have he : strEndsWith (lowStr (pad5 k ++ ".txt")) (lowStr ".txt") = true := by
    rw [lowStr_append]
    exact strEndsWith_append _ _
  rw [show lowStr ".txt" = ".txt" from by decide] at he
  exact he

theorem goodImg_isImgFile (f : String) (h : goodImg f = true) : isImgFile f = true := by
  have hne : extOfSplitext f ≠ "" := by
    intro he
    rw [goodImg, decide_eq_true_eq, he] at h
    exact absurd h (by decide)
  have hdecomp := extOf_decomp f hne
  have hf : f = (⟨(f.data.reverse.dropWhile (fun c => decide (c ≠ '.'))).tail.reverse⟩ : String)
      ++ extOfSplitext f := by
    apply string_mk_eq
    rw [data_append_eq]
    exact hdecomp
  have he : strEndsWith (lowStr f) (lowStr (extOfSplitext f)) = true := by
    nth_rewrite 1 [hf]
    rw [lowStr_append]
    exact strEndsWith_append _ _
  rw [goodImg, decide_eq_true_eq] at h
  simp only [List.mem_cons, List.not_mem_nil, or_false] at h
  rcases h with h | h | h <;> rw [isImgFile] <;> rw [h] at he <;> simp [he]

theorem target_extOf (f : String) (h : goodImg f = true) (k : Nat) :
    extOfSplitext (pad5 k ++ extOfSplitext f) = extOfSplitext f := by
  obtain ⟨hdata, hrest⟩ := goodImg_shape f h
  have h1 : (pad5 k ++ extOfSplitext f) = ⟨digList 5 k ++ '.' :: (extOfSplitext f).data.tail⟩ := by
    apply string_mk_eq
    rw [data_append_eq]
    exact congrArg (digList 5 k ++ ·) hdata
  rw [h1, extOf_digits_append (digList 5 k) ((extOfSplitext f).data.tail) ?_ ?_ hrest]
  · apply string_mk_eq
    exact hdata.symm
  · intro hnil
    have := digList_length 5 k
    rw [hnil] at this
    simp at this
  · exact digList_ne_dot 5 k

theorem renStep_error (st : RenState) (p : Nat × String × String) :
    (renStep st p).error = st.error := by
  rw [renStep]
  split <;> rfl

theorem renLoop_error (st : RenState) (ps : List (Nat × String × String)) :
    (renLoop st ps).error = st.error := by
  induction ps generalizing st with
  | nil => rfl
  | cons p ps ih =>
    rw [renLoop, List.foldl_cons, ← renLoop]
    rw [ih (renStep st p), renStep_error]

theorem map_range_succ_append (T : Nat → String) (k : Nat) (R : List String) :
    (List.range (k + 1)).map T ++ R = (List.range k).map T ++ T k :: R := by
  rw [List.range_succ, List.map_append, List.append_assoc]
  rfl

theorem renameFile_perm_step (dir D R : List String) (a t : String)
    (hperm : List.Perm dir (D ++ a :: R))
    (haD : a ∉ D) (htD : t ∉ D) (htR : t ∉ R) :
    List.Perm (renameFile dir a t) (D ++ t :: R) := by
  have h1 : List.Perm (dir.erase a) (D ++ R) := by
    have he := hperm.erase a
    rwa [List.erase_append_right _ haD, List.erase_cons_head] at he
  have h2 : List.Perm ((dir.erase a).erase t) (D ++ R) := by
    have ht : t ∉ D ++ R := by
      rw [List.mem_append]
      rintro (h | h)
      · exact htD h
      · exact htR h
    have he := h1.erase t
    rwa [List.erase_of_not_mem ht] at he
  have h3 : List.Perm (((dir.erase a).erase t) ++ [t]) ((D ++ R) ++ [t]) :=
    h2.append_right [t]
  refine h3.trans ?_
  rw [List.append_assoc]
  exact List.Perm.append_left D (List.perm_append_singleton t R)

theorem renLoop_inv (I L : List String) (N : Nat) (hNI : I.length = N) (hNL : L.length = N)
    (hN100 : N ≤ 100000)
    (hcol : ∀ j, j < N → ∀ i, i < j →
        I.getD j "" ≠ pad5 i ++ extOfSplitext (I.getD i "") ∧ L.getD j "" ≠ pad5 i ++ ".txt") :
    ∀ m k st, k + m = N →
      List.Perm st.imgs ((List.range k).map (imgTarget I) ++ I.drop k) →
      List.Perm st.lbls ((List.range k).map lblTarget ++ L.drop k) →
      List.Perm (renLoop st ((List.range' k m).zip ((I.drop k).zip (L.drop k)))).imgs
          ((List.range N).map (imgTarget I))
      ∧ List.Perm (renLoop st ((List.range' k m).zip ((I.drop k).zip (L.drop k)))).lbls
          ((List.range N).map lblTarget) := by
  intro m
  induction m with
  | zero =>
    intro k st hk hpi hpl
    have hkN : k = N := by omega
    subst hkN
    have hdi : I.drop k = [] := by rw [← hNI]; exact List.drop_length I
    have hdl : L.drop k = [] := by rw [← hNL]; exact List.drop_length L
    rw [hdi] at hpi
    rw [hdl] at hpl
    rw [List.append_nil] at hpi hpl
    exact ⟨hpi, hpl⟩
  | succ m ih =>
    intro k st hk hpi hpl
    have hkN : k < N := by omega
    have hkI : k < I.length := by omega
    have hkL : k < L.length := by omega
    have hdropI : I.drop k = I.getD k "" :: I.drop (k + 1) := by
      rw [List.getD_eq_getElem I "" hkI]
      exact List.drop_eq_getElem_cons hkI
    have hdropL : L.drop k = L.getD k "" :: L.drop (k + 1) := by
      rw [List.getD_eq_getElem L "" hkL]
      exact List.drop_eq_getElem_cons hkL
    rw [hdropI] at hpi
    rw [hdropL] at hpl
    rw [hdropI, hdropL, List.range'_succ, List.zip_cons_cons, List.zip_cons_cons]
    rw [renLoop, List.foldl_cons, ← renLoop]
    have himgs : List.Perm (renStep st (k, I.getD k "", L.getD k "")).imgs
        ((List.range (k + 1)).map (imgTarget I) ++ I.drop (k + 1)) := by
      rw [map_range_succ_append]
      rw [renStep]
      by_cases hskip : I.getD k "" = pad5 k ++ extOfSplitext (I.getD k "")
          ∧ L.getD k "" = pad5 k ++ ".txt"
      · rw [if_pos hskip]
        have ha : imgTarget I k = I.getD k "" := by
          rw [imgTarget, ← hskip.1]
        rw [ha]
        exact hpi
      · rw [if_neg hskip]
        have hres : imgTarget I k = pad5 k ++ extOfSplitext (I.getD k "") := rfl
        apply renameFile_perm_step st.imgs ((List.range k).map (imgTarget I))
          (I.drop (k + 1)) (I.getD k "") (pad5 k ++ extOfSplitext (I.getD k "")) hpi
        · intro hmem
          obtain ⟨i, hi, heq⟩ := List.mem_map.mp hmem
          have hik : i < k := List.mem_range.mp hi
          exact (hcol k hkN i hik).1 heq.symm
        · intro hmem
          obtain ⟨i, hi, heq⟩ := List.mem_map.mp hmem
          have hik : i < k := List.mem_range.mp hi
          exact pad5_append_ne (Nat.ne_of_lt hik) (by omega) (by omega) _ _ heq
        · intro hmem
          obtain ⟨j', hj', heq⟩ := List.mem_iff_getElem.mp hmem
          rw [List.getElem_drop] at heq
          have hjN : k + 1 + j' < N := by
            have := hj'
            rw [List.length_drop, hNI] at this
            omega
          have hcj := (hcol (k + 1 + j') hjN k (by omega)).1
          rw [List.getD_eq_getElem I "" (by omega)] at hcj
          exact hcj heq
    have hlbls : List.Perm (renStep st (k, I.getD k "", L.getD k "")).lbls
        ((List.range (k + 1)).map lblTarget ++ L.drop (k + 1)) := by
      rw [map_range_succ_append]
      rw [renStep]
      by_cases hskip : I.getD k "" = pad5 k ++ extOfSplitext (I.getD k "")
          ∧ L.getD k "" = pad5 k ++ ".txt"
      · rw [if_pos hskip]
        have hb : lblTarget k = L.getD k "" := by
          rw [lblTarget, ← hskip.2]
        rw [hb]
        exact hpl
      · rw [if_neg hskip]
        apply renameFile_perm_step st.lbls ((List.range k).map lblTarget)
          (L.drop (k + 1)) (L.getD k "") (pad5 k ++ ".txt") hpl
        · intro hmem
          obtain ⟨i, hi, heq⟩ := List.mem_map.mp hmem
          have hik : i < k := List.mem_range.mp hi
          exact (hcol k hkN i hik).2 heq.symm
        · intro hmem
          obtain ⟨i, hi, heq⟩ := List.mem_map.mp hmem
          have hik : i < k := List.mem_range.mp hi
          exact pad5_append_ne (Nat.ne_of_lt hik) (by omega) (by omega) _ _ heq
        · intro hmem
          obtain ⟨j', hj', heq⟩ := List.mem_iff_getElem.mp hmem
          rw [List.getElem_drop] at heq
          have hjN : k + 1 + j' < N := by
            have := hj'
            rw [List.length_drop, hNL] at this
            omega
          have hcj := (hcol (k + 1 + j') hjN k (by omega)).2
          rw [List.getD_eq_getElem L "" (by omega)] at hcj
          exact hcj heq
    exact ih (k + 1) (renStep st (k, I.getD k "", L.getD k "")) (by omega) himgs hlbls

theorem renLoop_all_skip (T U : Nat → String) : ∀ (ks : List Nat) (st : RenState),
    (∀ k ∈ ks, T k = pad5 k ++ extOfSplitext (T k)) →
    (∀ k ∈ ks, U k = pad5 k ++ ".txt") →
    renLoop st (ks.map (fun k => (k, T k, U k))) = st := by
  intro ks
  induction ks with
  | nil => intro st _ _; rfl
  | cons k ks ih =>
    intro st hT hU
    rw [List.map_cons, renLoop, List.foldl_cons, ← renLoop]
    have hstep : renStep st (k, T k, U k) = st := by
      rw [renStep]
      exact if_pos ⟨hT k (List.mem_cons_self _ _), hU k (List.mem_cons_self _ _)⟩
    rw [hstep]
    exact ih st (fun x hx => hT x (List.mem_cons_of_mem _ hx))
      (fun x hx => hU x (List.mem_cons_of_mem _ hx))

/-- **C5** (amended): renumbering a split whose directories hold only
well-formed image files (`splitext` extension lowercasing to
`.jpg`/`.jpeg`/`.png`) and `.txt` label files, with equal counts
`N ≤ 100000`, and in which no file is named like the zero-padded rename
target of an earlier sorted position (collision freedom — without it the
renamer overwrites pending samples, see the counterexample), produces
directories whose filenames are exactly `00000 … N-1`, each image keeping the
`splitext` extension of the image at its sorted position and each label named
`.txt`, where `N` is the common file count (not the number of stem-matched
pairs, which the zip-based pairing ignores); and a second run immediately
afterwards performs no rename at all (every pair hits the skip branch). -/
theorem c5_renumber_dense_idempotent (images labels : List String)
    (hgood : ∀ f ∈ images, goodImg f = true)
    (hlbl : ∀ f ∈ labels, isLblFile f = true)
    (hlen : images.length = labels.length)
    (hN100 : images.length ≤ 100000)
    (hcol : noCollisionB (sortStrings images) (sortStrings labels) = true) :
    (rename_image_label_pairs images labels).error = false
    ∧ List.Perm (rename_image_label_pairs images labels).imgs
        ((List.range images.length).map (imgTarget (sortStrings images)))
    ∧ List.Perm (rename_image_label_pairs images labels).lbls
        ((List.range images.length).map lblTarget)
    ∧ rename_image_label_pairs (rename_image_label_pairs images labels).imgs
        (rename_image_label_pairs images labels).lbls
      = ⟨(rename_image_label_pairs images labels).imgs,
         (rename_image_label_pairs images labels).lbls, [], false⟩ := by
  have hfI : images.filter isImgFile = images :=
    List.filter_eq_self.mpr (fun f hf => goodImg_isImgFile f (hgood f hf))
  have hfL : labels.filter isLblFile = labels :=
    List.filter_eq_self.mpr (fun f hf => hlbl f hf)
  have hpermI : List.Perm (sortStrings images) images := List.perm_insertionSort strLe images
  have hpermL : List.Perm (sortStrings labels) labels := List.perm_insertionSort strLe labels
  have hNI : (sortStrings images).length = images.length := hpermI.length_eq
  have hNL : (sortStrings labels).length = images.length := hpermL.length_eq.trans hlen.symm
  have hrw : rename_image_label_pairs images labels
      = renLoop ⟨images, labels, [], false⟩
          (((sortStrings images).zip (sortStrings labels)).enum) := by
    rw [rename_image_label_pairs, hfI, hfL]
    rw [if_neg (by rw [hNI, hNL]; exact fun h => h rfl)]
  have hcolP : ∀ j, j < images.length → ∀ i, i < j →
      (sortStrings images).getD j "" ≠
          pad5 i ++ extOfSplitext ((sortStrings images).getD i "")
      ∧ (sortStrings labels).getD j "" ≠ pad5 i ++ ".txt" := by
    intro j hj i hij
    rw [noCollisionB, List.all_eq_true] at hcol
    have h1 := hcol j (List.mem_range.mpr (by rw [hNI]; exact hj))
    rw [List.all_eq_true] at h1
    have h2 := h1 i (List.mem_range.mpr hij)
    rw [Bool.and_eq_true, decide_eq_true_eq, decide_eq_true_eq] at h2
    exact h2
  have hzlen : ((sortStrings images).zip (sortStrings labels)).length = images.length := by
    rw [List.length_zip, hNI, hNL]
    exact Nat.min_self _
  have hfold : ((sortStrings images).zip (sortStrings labels)).enum
      = (List.range' 0 images.length).zip
          (((sortStrings images).drop 0).zip ((sortStrings labels).drop 0)) := by
    rw [List.enum_eq_zip_range, List.range_eq_range', hzlen]
    rfl
  have hinv := renLoop_inv (sortStrings images) (sortStrings labels) images.length hNI hNL
      hN100 hcolP images.length 0 ⟨images, labels, [], false⟩ (by omega)
      (by simpa using hpermI.symm) (by simpa using hpermL.symm)
  obtain ⟨hPimg, hPlbl⟩ := hinv
  rw [← hfold] at hPimg hPlbl
  have herr : (rename_image_label_pairs images labels).error = false := by
    rw [hrw, renLoop_error]
  have hPimg' : List.Perm (rename_image_label_pairs images labels).imgs
      ((List.range images.length).map (imgTarget (sortStrings images))) := by
    rw [hrw]; exact hPimg
  have hPlbl' : List.Perm (rename_image_label_pairs images labels).lbls
      ((List.range images.length).map lblTarget) := by
    rw [hrw]; exact hPlbl
  refine ⟨herr, hPimg', hPlbl', ?_⟩
  have hTgood : ∀ k, k < images.length → goodImg ((sortStrings images).getD k "") = true := by
    intro k hk
    have hmem : (sortStrings images).getD k "" ∈ sortStrings images := by
      rw [List.getD_eq_getElem (sortStrings images) "" (by omega)]
      exact List.getElem_mem _
    exact hgood _ (hpermI.subset hmem)
  have hfF : (rename_image_label_pairs images labels).imgs.filter isImgFile
      = (rename_image_label_pairs images labels).imgs := by
    apply List.filter_eq_self.mpr
    intro x hx
    have hxT := hPimg'.subset hx
    obtain ⟨k, hk, rfl⟩ := List.mem_map.mp hxT
    exact target_isImgFile _ (hTgood k (List.mem_range.mp hk)) k
  have hfG : (rename_image_label_pairs images labels).lbls.filter isLblFile
      = (rename_image_label_pairs images labels).lbls := by
    apply List.filter_eq_self.mpr
    intro x hx
    have hxT := hPlbl'.subset hx
    obtain ⟨k, _, rfl⟩ := List.mem_map.mp hxT
    exact isLblFile_target k
  haveI instTot : IsTotal String strLe := ⟨strLe_total⟩
  haveI instTrans : IsTrans String strLe := ⟨strLe_trans⟩
  haveI instAnti : IsAntisymm String strLe := ⟨strLe_antisymm⟩
  have hsortedT : List.Sorted strLe
      ((List.range images.length).map (imgTarget (sortStrings images))) := by
    rw [List.Sorted, List.pairwise_map]
    apply List.Pairwise.imp_of_mem ?_ (List.pairwise_lt_range images.length)
    intro i j hi hj hij
    have hjN : j < 100000 := by
      have := List.mem_range.mp hj
      omega
    exact lexLt_asymm _ _ (pad5_append_lexLt hij hjN _ _)
  have hsortedU : List.Sorted strLe ((List.range images.length).map lblTarget) := by
    rw [List.Sorted, List.pairwise_map]
    apply List.Pairwise.imp_of_mem ?_ (List.pairwise_lt_range images.length)
    intro i j hi hj hij
    have hjN : j < 100000 := by
      have := List.mem_range.mp hj
      omega
    exact lexLt_asymm _ _ (pad5_append_lexLt hij hjN _ _)
  have hsortF : sortStrings (rename_image_label_pairs images labels).imgs
      = (List.range images.length).map (imgTarget (sortStrings images)) :=
    List.eq_of_perm_of_sorted ((List.perm_insertionSort strLe _).trans hPimg')
      (List.sorted_insertionSort strLe _) hsortedT
  have hsortG : sortStrings (rename_image_label_pairs images labels).lbls
      = (List.range images.length).map lblTarget :=
    List.eq_of_perm_of_sorted ((List.perm_insertionSort strLe _).trans hPlbl')
      (List.sorted_insertionSort strLe _) hsortedU
  rw [rename_image_label_pairs, hfF, hfG, hsortF, hsortG]
  rw [if_neg (by rw [List.length_map, List.length_map]; exact fun h => h rfl)]
  have henum2 : (((List.range images.length).map (imgTarget (sortStrings images))).zip
        ((List.range images.length).map lblTarget)).enum
      = (List.range images.length).map
          (fun k => (k, imgTarget (sortStrings images) k, lblTarget k)) := by
    rw [List.zip_map', List.enum_eq_zip_range, List.length_map, List.length_range]
    have hz := List.zip_map' id
      (fun k => (imgTarget (sortStrings images) k, lblTarget k)) (List.range images.length)
    simpa using hz
  rw [henum2]
  rw [renLoop_all_skip (imgTarget (sortStrings images)) lblTarget (List.range images.length)
    ⟨(rename_image_label_pairs images labels).imgs,
     (rename_image_label_pairs images labels).lbls, [], false⟩
    ?_ ?_]
  · intro k hk
    have hkN : k < images.length := List.mem_range.mp hk
    rw [show extOfSplitext (imgTarget (sortStrings images) k)
        = extOfSplitext ((sortStrings images).getD k "") from
      target_extOf _ (hTgood k hkN) k]
    rfl
  · intro k _
    rfl

/-- **C5** witness: a two-sample split renumbers to `00000.png`/`00001.jpg`
(each image keeping its extension, labels `.txt`), and the second run is a
no-op. -/
theorem c5_witness :
    (rename_image_label_pairs ["b.jpg", "a.png"] ["b.txt", "a.txt"]).error = false
    ∧ List.Perm (rename_image_label_pairs ["b.jpg", "a.png"] ["b.txt", "a.txt"]).imgs
        ((List.range (["b.jpg", "a.png"] : List String).length).map
          (imgTarget (sortStrings ["b.jpg", "a.png"])))
    ∧ List.Perm (rename_image_label_pairs ["b.jpg", "a.png"] ["b.txt", "a.txt"]).lbls
        ((List.range (["b.jpg", "a.png"] : List String).length).map lblTarget)
    ∧ rename_image_label_pairs
        (rename_image_label_pairs ["b.jpg", "a.png"] ["b.txt", "a.txt"]).imgs
        (rename_image_label_pairs ["b.jpg", "a.png"] ["b.txt", "a.txt"]).lbls
      = ⟨(rename_image_label_pairs ["b.jpg", "a.png"] ["b.txt", "a.txt"]).imgs,
         (rename_image_label_pairs ["b.jpg", "a.png"] ["b.txt", "a.txt"]).lbls, [], false⟩ :=
  c5_renumber_dense_idempotent ["b.jpg", "a.png"] ["b.txt", "a.txt"]
    (by decide) (by decide) rfl (by decide) (by decide)

/-- **C5** counterexample: a split with one image `a.jpg` and one label
`b.txt` has equal counts but *zero* samples with both files present (the
stems differ), so the claim predicts no renaming at all; the code pairs the
sorted listings positionally and renames both files to `00000.*`.  The claim's
"N = number of samples with both files present" does not match the code,
whose `N` is the common file count regardless of stem pairing. -/
theorem c5_counterexample :
    (rename_image_label_pairs ["a.jpg"] ["b.txt"]).imgs = ["00000.jpg"]
    ∧ (rename_image_label_pairs ["a.jpg"] ["b.txt"]).lbls = ["00000.txt"]
    ∧ pathStem "a.jpg" ≠ pathStem "b.txt" :=
  ⟨by decide, by decide, by decide⟩
